import Mathlib

/-!
Verification development for the PadiChat agent core.

Shallow embedding of the agent control loop (`src/agent.py`) and the user
profile store (`src/user_profile.py`, `src/handlers.py`).

Modelling conventions:
* Python dicts are association lists (`dget` / `dset` / `dictUpdate`) with
  Python insertion-order update semantics.
* Python truthiness of an optional string (`if image_data_b64`,
  `tc.get("id")`) is `truthyStr` / `presentImage`: `None` and the empty
  string are falsy.
* External library functions (`json.loads`, `json.dumps`) and external
  effects (the chat-completion HTTP call, tool bodies) are oracle
  parameters: `parseJson`, `dumpJson`, `BackendOutcome`, `ToolSem`.
* The closed message model has the four variants the handlers construct
  (system / human / assistant / tool); the `else: logger.warning` arm of
  the formatting loop for unknown runtime types is therefore not
  representable, matching the data model of the system.
-/

namespace PadiChat

/-- Parsed tool-call arguments (the `args_dict` produced by `json.loads`);
argument values are modelled opaquely as strings. -/
abbrev ArgsDict := List (String × String)

/-- One entry of an `AIMessage.tool_calls` list as built by `call_llm`:
`\x7b"id": tool_call.id, "name": tool_call.function.name, "args": args_dict\x7d`. -/
structure ToolCall where
  id : Option String
  name : Option String
  args : ArgsDict
deriving DecidableEq

/-- The message model: the four role-tagged variants the handlers and the
agent construct (`SystemMessage`, `HumanMessage`, `AIMessage`, `ToolMessage`).
`ai` content is optional because `call_llm` branches on `msg.content is None`. -/
inductive Message where
  | system (content : String)
  | human (content : String)
  | ai (content : Option String) (tool_calls : List ToolCall)
  | tool (content : String) (tool_call_id : String) (name : String)
deriving DecidableEq

/-- Python truthiness of an optional string: `None` and `""` are falsy. -/
def truthyStr : Option String → Bool
  | none => false
  | some s => s != ""

/-- `src/agent.py` `should_continue` (lines 214-225): routes to
`"execute_tools"` iff the last message is an `AIMessage` with a non-empty
`tool_calls` list containing at least one call with a truthy `id`. -/
def should_continue (messages : List Message) : String :=
  match messages.getLast? with
  | some (Message.ai _ tool_calls) =>
    if tool_calls.isEmpty then "__end__"
    else if tool_calls.any (fun tc => truthyStr tc.id) then "execute_tools"
    else "__end__"
  | _ => "__end__"

/-- Whether an assistant message carries at least one tool-invocation
request with a non-empty id (the router condition of the spec). -/
def hasValidToolRequest : Message → Bool
  | Message.ai _ tcs => tcs.any (fun tc => truthyStr tc.id)
  | _ => false

/-- Outcome of invoking one registered tool body: it either returns a
value already serialized to a string (the `str(result)` /
`json.dumps(result)` path of lines 198-202), or raises an exception with
a class name and a message. -/
inductive ToolOutcome where
  | ok (result : String)
  | raised (exnName : String) (exnMsg : String)
deriving DecidableEq

/-- Oracle for the tool registry of `src/tools.py`: `lookup` is membership
in `tool_executor_map`, `run` is the (external-effect) body of the tool. -/
structure ToolSem where
  lookup : String → Bool
  run : String → ArgsDict → ToolOutcome

/-- A tool call passes the guard of line 180 (`if not tool_name or not
tool_id: continue`) iff both its name and its id are truthy. -/
def validTC (tc : ToolCall) : Bool :=
  truthyStr tc.name && truthyStr tc.id

/-- Result string for one valid tool call (`src/agent.py` lines 185-206):
not-found error, caught-exception error, or the tool result. -/
def runRequest (sem : ToolSem) (tc : ToolCall) : String :=
  let name := tc.name.getD ""
  if !(sem.lookup name) then "Error: Tool \x27" ++ name ++ "\x27 not found."
  else
    match sem.run name tc.args with
    | ToolOutcome.ok r => r
    | ToolOutcome.raised en em =>
        "Error executing tool " ++ name ++ ": " ++ en ++ " - " ++ em

/-- `src/agent.py` `execute_tools` (lines 164-211): one `ToolMessage` per
valid tool call of the last assistant message, in request order; calls
with missing/empty name or id are skipped (`continue`). -/
def execute_tools (sem : ToolSem) (messages : List Message) : List Message :=
  match messages.getLast? with
  | some (Message.ai _ tool_calls) =>
    if tool_calls.isEmpty then []
    else
      tool_calls.foldl
        (fun acc tc =>
          if validTC tc then
            acc ++ [Message.tool (runRequest sem tc) (tc.id.getD "") (tc.name.getD "")]
          else acc)
        []
  | _ => []

/-- The tool-result message `execute_tools` appends for a valid call. -/
def toolMsgOf (sem : ToolSem) (tc : ToolCall) : Message :=
  Message.tool (runRequest sem tc) (tc.id.getD "") (tc.name.getD "")

lemma executeTools_foldl_eq (sem : ToolSem) (tcs : List ToolCall) (acc : List Message) :
    tcs.foldl
      (fun acc tc =>
        if validTC tc then
          acc ++ [Message.tool (runRequest sem tc) (tc.id.getD "") (tc.name.getD "")]
        else acc)
      acc = acc ++ (tcs.filter validTC).map (toolMsgOf sem) := by
  induction tcs generalizing acc with
  | nil => simp
  | cons tc rest ih =>
    simp only [List.foldl_cons, List.filter_cons]
    by_cases h : validTC tc
    · simp [h, ih, toolMsgOf]
    · simp [h, ih]

/-- Closed-form description of `execute_tools` on a history ending in an
assistant message: results are the valid requests, filtered and mapped in
order. Used by several claims. -/
lemma executeTools_concat_eq (sem : ToolSem) (hist : List Message)
    (c : Option String) (tcs : List ToolCall) :
    execute_tools sem (hist ++ [Message.ai c tcs])
      = (tcs.filter validTC).map (toolMsgOf sem) := by
  unfold execute_tools
  rw [List.getLast?_concat]
  by_cases h : tcs.isEmpty
  · have : tcs = [] := List.isEmpty_iff.mp h
    simp [this]
  · simp only [h, if_false]
    rw [executeTools_foldl_eq]
    simp

/-! ## Model gateway: `call_llm` (`src/agent.py` lines 29-159) -/

/-- `src/llm_interface.py` line 10. -/
def TEXT_TOOL_MODEL_NAME : String := "meta-llama/Meta-Llama-3.1-70B-Instruct-fast"

/-- `src/llm_interface.py` line 11. -/
def VISION_MODEL_NAME : String := "google/gemma-3-27b-it-fast"

/-- One entry of `available_tools_definitions` (`src/tools.py` lines 24-43);
the parameter schema is irrelevant to the verified claims and kept as the
tool name plus description. -/
structure ToolDef where
  name : String
  description : String
deriving DecidableEq

/-- `src/tools.py` `available_tools_definitions`: the two advertised tools. -/
def available_tools_definitions : List ToolDef :=
  [⟨"get_current_weather", "Get the current weather in a specific location."⟩,
   ⟨"web_search", "Searches the web for information on a given query. Use this for recent events, specific facts, or topics outside common knowledge."⟩]

/-- One part of a multimodal wire content list. -/
inductive ContentPart where
  | text (s : String)
  | image_url (url : String)
deriving DecidableEq

/-- Wire content of a formatted message: a plain string, a multimodal part
list, or absent (the `del ai_msg_data["content"]` case of line 75). -/
inductive FContent where
  | str (s : String)
  | parts (l : List ContentPart)
  | absent
deriving DecidableEq

/-- The serialized form of one tool call inside a formatted assistant
message (lines 65-73); `arguments` is the `json.dumps` encoding. -/
structure ApiToolCall where
  id : Option String
  name : Option String
  arguments : String
deriving DecidableEq

/-- One wire-format chat message as built by the formatting loop. -/
structure FormattedMessage where
  role : String
  content : FContent
  tool_calls : Option (List ApiToolCall) := none
  tool_call_id : Option String := none
  name : Option String := none
deriving DecidableEq

/-- Formatting of a single message (`src/agent.py` lines 57-82).
Every variant yields exactly one wire message: an assistant message is
always appended (content is replaced by `""` when `None` without tool
calls, and deleted when `None` with tool calls, after which the line 77
guard passes via `tool_calls`). -/
def formatMessage (dumpJson : ArgsDict → String) : Message → FormattedMessage
  | Message.human c => { role := "user", content := FContent.str c }
  | Message.system c => { role := "system", content := FContent.str c }
  | Message.tool c id name =>
      { role := "tool", content := FContent.str c,
        tool_call_id := some id, name := some name }
  | Message.ai c tcs =>
      if tcs.isEmpty then
        { role := "assistant", content := FContent.str (c.getD "") }
      else
        { role := "assistant",
          content := match c with
            | none => FContent.absent
            | some s => FContent.str s,
          tool_calls := some (tcs.map (fun tc => ⟨tc.id, tc.name, dumpJson tc.args⟩)) }

/-- The formatting loop accumulates by appending one formatted message per
input message. -/
def formatMessages (dumpJson : ArgsDict → String) (msgs : List Message) :
    List FormattedMessage :=
  msgs.foldl (fun acc m => acc ++ [formatMessage dumpJson m]) []

lemma formatMessages_foldl (dumpJson : ArgsDict → String) (msgs : List Message)
    (acc : List FormattedMessage) :
    msgs.foldl (fun acc m => acc ++ [formatMessage dumpJson m]) acc
      = acc ++ msgs.map (formatMessage dumpJson) := by
  induction msgs generalizing acc with
  | nil => simp
  | cons m rest ih => simp [ih]

lemma formatMessages_eq_map (dumpJson : ArgsDict → String) (msgs : List Message) :
    formatMessages dumpJson msgs = msgs.map (formatMessage dumpJson) := by
  unfold formatMessages
  rw [formatMessages_foldl]
  simp

/-- The running `last_human_message_index` of the `enumerate` loop
(lines 56-59): `i` is the index counter, `acc` the index of the most
recent `HumanMessage` seen so far (`none` models the initial `-1`). -/
def lastHumanLoop (i : Nat) (acc : Option Nat) : List Message → Option Nat
  | [] => acc
  | m :: rest =>
      lastHumanLoop (i + 1)
        (match m with
         | Message.human _ => some i
         | _ => acc)
        rest

/-- Index of the most recent `HumanMessage`, or `none` (modelling the initial value -1 of the source). -/
def lastHumanIndex (msgs : List Message) : Option Nat :=
  lastHumanLoop 0 none msgs

/-- Structural recomputation of `lastHumanIndex`, convenient for proofs. -/
def lastHumanSpec : List Message → Option Nat
  | [] => none
  | m :: rest =>
      match lastHumanSpec rest with
      | some j => some (j + 1)
      | none =>
          match m with
          | Message.human _ => some 0
          | _ => none

lemma lastHumanLoop_eq (l : List Message) (i : Nat) (acc : Option Nat) :
    lastHumanLoop i acc l
      = match lastHumanSpec l with
        | some j => some (i + j)
        | none => acc := by
  induction l generalizing i acc with
  | nil => simp [lastHumanLoop, lastHumanSpec]
  | cons m rest ih =>
    rcases h : lastHumanSpec rest with _ | j <;>
      cases m <;>
        simp [lastHumanLoop, lastHumanSpec, ih, h] <;> omega

lemma lastHumanIndex_eq_spec (msgs : List Message) :
    lastHumanIndex msgs = lastHumanSpec msgs := by
  unfold lastHumanIndex
  rw [lastHumanLoop_eq]
  rcases h : lastHumanSpec msgs with _ | j <;> simp

lemma lastHumanSpec_cons (m : Message) (rest : List Message) :
    lastHumanSpec (m :: rest)
      = match lastHumanSpec rest with
        | some j => some (j + 1)
        | none =>
            match m with
            | Message.human _ => some 0
            | _ => none := rfl

lemma lastHumanSpec_lt_length (msgs : List Message) (j : Nat)
    (h : lastHumanSpec msgs = some j) : j < msgs.length := by
  induction msgs generalizing j with
  | nil => simp [lastHumanSpec] at h
  | cons m rest ih =>
    rw [lastHumanSpec_cons] at h
    rcases hr : lastHumanSpec rest with _ | j'
    · rw [hr] at h
      cases m with
      | human s0 =>
        simp at h
        subst h
        simp
      | system c => simp at h
      | ai c tcs => simp at h
      | tool c tid tn => simp at h
    · rw [hr] at h
      simp only [Option.some.injEq] at h
      have := ih j' hr
      simp only [List.length_cons]
      omega

lemma lastHumanSpec_get (msgs : List Message) (j : Nat)
    (h : lastHumanSpec msgs = some j) :
    ∃ s, msgs.get? j = some (Message.human s) := by
  induction msgs generalizing j with
  | nil => simp [lastHumanSpec] at h
  | cons m rest ih =>
    rw [lastHumanSpec_cons] at h
    rcases hr : lastHumanSpec rest with _ | j'
    · rw [hr] at h
      cases m with
      | human s0 =>
        simp at h
        subst h
        exact ⟨s0, rfl⟩
      | system c => simp at h
      | ai c tcs => simp at h
      | tool c tid tn => simp at h
    · rw [hr] at h
      simp only [Option.some.injEq] at h
      subst h
      simpa using ih j' hr

lemma lastHumanSpec_none_forall (msgs : List Message)
    (h : lastHumanSpec msgs = none) :
    ∀ m ∈ msgs, ∀ s, m ≠ Message.human s := by
  induction msgs with
  | nil => simp
  | cons m rest ih =>
    rw [lastHumanSpec_cons] at h
    rcases hr : lastHumanSpec rest with _ | j'
    · rw [hr] at h
      have hm : ∀ s, m ≠ Message.human s := by
        intro s hm
        subst hm
        simp at h
      intro x hx s
      rcases List.mem_cons.mp hx with hx | hx
      · rw [hx]
        exact hm s
      · exact ih hr x hx s
    · rw [hr] at h
      simp at h

lemma lastHumanSpec_latest (msgs : List Message) (j : Nat)
    (h : lastHumanSpec msgs = some j) :
    ∀ i, j < i → ∀ s, msgs.get? i ≠ some (Message.human s) := by
  induction msgs generalizing j with
  | nil => simp [lastHumanSpec] at h
  | cons m rest ih =>
    rw [lastHumanSpec_cons] at h
    rcases hr : lastHumanSpec rest with _ | j'
    · rw [hr] at h
      have hrest := lastHumanSpec_none_forall rest hr
      intro i hi s
      rcases i with _ | i'
      · omega
      · simp only [List.get?_cons_succ]
        intro hget
        exact hrest _ (List.get?_mem hget) s rfl
    · rw [hr] at h
      simp only [Option.some.injEq] at h
      subst h
      intro i hi s
      rcases i with _ | i'
      · omega
      · simp only [List.get?_cons_succ]
        exact ih j' hr i' (by omega) s

/-! ### Image handling and payload (`src/agent.py` lines 39-48, 84-118) -/

/-- Python truthiness of `image_data_b64`: normalizes `some ""` to `none`. -/
def presentImage : Option String → Option String
  | none => none
  | some s => if s == "" then none else some s

/-- The `data:` URL built for the image part (lines 92 and 95). -/
def imageUrl (b64 : String) : String := "data:image/jpeg;base64," ++ b64

/-- In-place update of the element at index `i` (the mutation of
`formatted_messages[last_human_message_index]`). -/
def modifyIdx {α : Type} : List α → Nat → (α → α) → List α
  | [], _, _ => []
  | a :: rest, 0, f => f a :: rest
  | a :: rest, i + 1, f => a :: modifyIdx rest i f

lemma length_modifyIdx {α : Type} (l : List α) (i : Nat) (f : α → α) :
    (modifyIdx l i f).length = l.length := by
  induction l generalizing i with
  | nil => rfl
  | cons a rest ih =>
    cases i <;> simp [modifyIdx, ih]

lemma get?_modifyIdx_self {α : Type} (l : List α) (i : Nat) (f : α → α) :
    (modifyIdx l i f).get? i = (l.get? i).map f := by
  induction l generalizing i with
  | nil => cases i <;> rfl
  | cons a rest ih =>
    cases i with
    | zero => simp [modifyIdx]
    | succ n =>
      simp only [modifyIdx, List.get?_cons_succ]
      exact ih n

lemma get?_modifyIdx_ne {α : Type} (l : List α) (i k : Nat) (f : α → α)
    (h : k ≠ i) : (modifyIdx l i f).get? k = l.get? k := by
  induction l generalizing i k with
  | nil => cases i <;> rfl
  | cons a rest ih =>
    cases i with
    | zero =>
      cases k with
      | zero => exact absurd rfl h
      | succ k' => simp [modifyIdx]
    | succ i' =>
      cases k with
      | zero => simp [modifyIdx]
      | succ k' =>
        simp only [modifyIdx, List.get?_cons_succ]
        exact ih i' k' (by omega)

lemma mem_modifyIdx {α : Type} (l : List α) (i : Nat) (f : α → α) (a : α)
    (h : a ∈ modifyIdx l i f) : a ∈ l ∨ ∃ b ∈ l, a = f b := by
  induction l generalizing i with
  | nil => simp [modifyIdx] at h
  | cons x rest ih =>
    cases i with
    | zero =>
      simp only [modifyIdx, List.mem_cons] at h
      rcases h with h | h
      · exact Or.inr ⟨x, List.mem_cons_self x rest, h⟩
      · exact Or.inl (List.mem_cons_of_mem x h)
    | succ i' =>
      simp only [modifyIdx, List.mem_cons] at h
      rcases h with h | h
      · exact Or.inl (h ▸ List.mem_cons_self x rest)
      · rcases ih i' h with h' | ⟨b, hb, hab⟩
        · exact Or.inl (List.mem_cons_of_mem x h')
        · exact Or.inr ⟨b, List.mem_cons_of_mem x hb, hab⟩

/-- Convert the content of the targeted message to a part list and append
the image part (lines 88-92). The `absent` arm matches the
`elif not isinstance(..., list)` generic-prompt branch; it is unreachable
because the targeted index always holds a user message with string content. -/
def attachTo (b64 : String) (fm : FormattedMessage) : FormattedMessage :=
  { fm with content :=
      match fm.content with
      | FContent.str s =>
          FContent.parts [ContentPart.text s, ContentPart.image_url (imageUrl b64)]
      | FContent.parts l =>
          FContent.parts (l ++ [ContentPart.image_url (imageUrl b64)])
      | FContent.absent =>
          FContent.parts [ContentPart.text "Please describe the image.",
                          ContentPart.image_url (imageUrl b64)] }

/-- The user message synthesized when an image is present but no
`HumanMessage` exists (line 95). -/
def syntheticImageMessage (b64 : String) : FormattedMessage :=
  { role := "user",
    content := FContent.parts [ContentPart.text "Analyze this image.",
                               ContentPart.image_url (imageUrl b64)] }

/-- Image attachment (lines 85-95): with an image and a last user index,
mutate that wire message; with an image but no user message, append the
synthetic analysis request; with no image, leave the list unchanged. -/
def attachImage (fmsgs : List FormattedMessage) (idx : Option Nat)
    (img : Option String) : List FormattedMessage :=
  match img with
  | none => fmsgs
  | some b64 =>
    match idx with
    | some i => modifyIdx fmsgs i (attachTo b64)
    | none => fmsgs ++ [syntheticImageMessage b64]

/-- The outgoing chat-completion payload (`api_call_params`, lines
107-115). The float literal `0.6` is recorded as its literal text. -/
structure ApiCallParams where
  model : String
  messages : List FormattedMessage
  temperature : String := "0.6"
  tools : Option (List ToolDef) := none
  tool_choice : Option String := none
deriving DecidableEq

/-- Python truthiness of `tools_to_pass`. -/
def toolsTruthy : Option (List ToolDef) → Bool
  | none => false
  | some l => !l.isEmpty

/-- Payload construction (lines 107-118): tool parameters are added only
when calling the text/tool model with a truthy tool list. -/
def buildPayload (model : String) (tools : Option (List ToolDef))
    (tool_choice : Option String) (vmsgs : List FormattedMessage) : ApiCallParams :=
  if model == TEXT_TOOL_MODEL_NAME && toolsTruthy tools then
    { model := model, messages := vmsgs, tools := tools, tool_choice := tool_choice }
  else
    { model := model, messages := vmsgs }

/-- One raw `tool_calls` entry of the backend reply: `id`, function name,
and the still-encoded `arguments` string. -/
structure RawToolCall where
  id : Option String
  name : Option String
  arguments : String
deriving DecidableEq

/-- The observable outcome of the `chat.completions.create` call:
a reply (content plus raw tool calls), a `BadRequestError` (carrying the
`error_detail` string the handler extracts from it), or any other
exception (carrying its class name). -/
inductive BackendOutcome where
  | success (content : Option String) (tool_calls : List RawToolCall)
  | badRequest (detail : String)
  | otherError (exnName : String)
deriving DecidableEq

/-- Reply parsing (lines 126-134): decode the arguments of each raw entry;
an entry whose arguments fail to parse is dropped, the rest are kept in
order. -/
def parseRawToolCalls (parseJson : String → Option ArgsDict)
    (raw : List RawToolCall) : List ToolCall :=
  raw.foldl
    (fun acc tc =>
      match parseJson tc.arguments with
      | some args => acc ++ [⟨tc.id, tc.name, args⟩]
      | none => acc)
    []

lemma parseRawToolCalls_foldl (parseJson : String → Option ArgsDict)
    (raw : List RawToolCall) (acc : List ToolCall) :
    raw.foldl
      (fun acc tc =>
        match parseJson tc.arguments with
        | some args => acc ++ [⟨tc.id, tc.name, args⟩]
        | none => acc)
      acc
      = acc ++ raw.filterMap
          (fun tc => (parseJson tc.arguments).map (fun a => ToolCall.mk tc.id tc.name a)) := by
  induction raw generalizing acc with
  | nil => simp
  | cons tc rest ih =>
    simp only [List.foldl_cons, List.filterMap_cons]
    rcases h : parseJson tc.arguments with _ | args
    · simp [h, ih]
    · simp [h, ih]

lemma parseRawToolCalls_eq (parseJson : String → Option ArgsDict)
    (raw : List RawToolCall) :
    parseRawToolCalls parseJson raw
      = raw.filterMap
          (fun tc => (parseJson tc.arguments).map (fun a => ToolCall.mk tc.id tc.name a)) := by
  unfold parseRawToolCalls
  rw [parseRawToolCalls_foldl]
  simp

/-- Result of `call_llm`: the payload actually sent (or `none` when the
empty-history short circuit of lines 99-101 fires) and the assistant
message appended to the state. -/
structure CallLLMResult where
  payload : Option ApiCallParams
  message : Message

/-- The fully formatted, image-attached wire message list of one turn. -/
def formattedForLLM (dumpJson : ArgsDict → String) (msgs : List Message)
    (image_base64 : Option String) : List FormattedMessage :=
  attachImage (formatMessages dumpJson msgs) (lastHumanIndex msgs)
    (presentImage image_base64)

/-- `src/agent.py` `call_llm` (lines 29-159): select the backend from image
presence, format and attach, short-circuit on an empty wire list, build
the payload, then turn the backend outcome into the assistant message
(parsed reply, bad-request notice, or generic failure notice). Exceptions
are consumed here and never escape; no retry is attempted. -/
def call_llm (parseJson : String → Option ArgsDict) (dumpJson : ArgsDict → String)
    (msgs : List Message) (image_base64 : Option String)
    (outcome : BackendOutcome) : CallLLMResult :=
  let img := presentImage image_base64
  let model_to_use := if img.isSome then VISION_MODEL_NAME else TEXT_TOOL_MODEL_NAME
  let tools_to_pass : Option (List ToolDef) :=
    if img.isSome then none else some available_tools_definitions
  let tool_choice_to_pass : Option String :=
    if img.isSome then none else some "auto"
  let formatted := formattedForLLM dumpJson msgs image_base64
  let valid := formatted.filter (fun m => m.role != "")
  if valid.isEmpty then
    { payload := none, message := Message.ai (some "Internal Error: No history.") [] }
  else
    let params := buildPayload model_to_use tools_to_pass tool_choice_to_pass valid
    match outcome with
    | BackendOutcome.success content raw =>
        { payload := some params,
          message := Message.ai (some (content.getD ""))
            (parseRawToolCalls parseJson raw) }
    | BackendOutcome.badRequest detail =>
        { payload := some params,
          message := Message.ai
            (some ("Sorry, there was an error communicating with the AI model ("
              ++ model_to_use ++ "). Details: " ++ detail
              ++ ". Please try again or rephrase.")) [] }
    | BackendOutcome.otherError exnName =>
        { payload := some params,
          message := Message.ai
            (some ("Sorry, an unexpected error occurred while processing your request with model "
              ++ model_to_use ++ " (" ++ exnName ++ ").")) [] }

/-! ## Control loop (`src/agent.py` `build_agent_graph`, lines 229-240)

The compiled graph: entry `call_llm`; after `call_llm` the conditional
edge `should_continue` picks `execute_tools` or `END`; after
`execute_tools` an unconditional edge returns to `call_llm`.
`add_messages` appends the messages returned by each node to the state. -/

inductive LoopState where
  | awaitModel (msgs : List Message)
  | runTools (msgs : List Message)
  | done (msgs : List Message)
deriving DecidableEq

/-- All external inputs of one turn: the argument oracles and the
per-call backend replies (`backend k` is the reply to the `k`-th
completion request of the turn). -/
structure LoopConfig where
  parseJson : String → Option ArgsDict
  dumpJson : ArgsDict → String
  sem : ToolSem
  backend : Nat → BackendOutcome
  image_base64 : Option String

/-- One transition of the graph, paired with the count of completion
calls made so far. -/
def loopStep (cfg : LoopConfig) : Nat × LoopState → Nat × LoopState
  | (k, LoopState.awaitModel msgs) =>
    let r := call_llm cfg.parseJson cfg.dumpJson msgs cfg.image_base64 (cfg.backend k)
    let msgs2 := msgs ++ [r.message]
    if should_continue msgs2 = "execute_tools" then (k + 1, LoopState.runTools msgs2)
    else (k + 1, LoopState.done msgs2)
  | (k, LoopState.runTools msgs) =>
      (k, LoopState.awaitModel (msgs ++ execute_tools cfg.sem msgs))
  | (k, LoopState.done msgs) => (k, LoopState.done msgs)

/-- `n` transitions of the graph. -/
def loopIter (cfg : LoopConfig) : Nat → Nat × LoopState → Nat × LoopState
  | 0, s => s
  | n + 1, s => loopIter cfg n (loopStep cfg s)

def isDone : LoopState → Bool
  | LoopState.done _ => true
  | _ => false

/-- A trivial tool semantics: nothing registered, so every valid request
yields a not-found error result. -/
def semStub : ToolSem :=
  { lookup := fun _ => false, run := fun _ _ => ToolOutcome.ok "" }

/-- A misbehaving backend that requests the same tool, with a non-empty
id and well-formed arguments, on every reply. -/
def alwaysToolBackend : Nat → BackendOutcome :=
  fun _ => BackendOutcome.success (some "")
    [⟨some "a1", some "get_current_weather", "\x7b\x7d"⟩]

/-- Adversarial turn configuration used to analyse termination. -/
def advCfg : LoopConfig :=
  { parseJson := fun _ => some []
    dumpJson := fun _ => "\x7b\x7d"
    sem := semStub
    backend := alwaysToolBackend
    image_base64 := none }

/-! ## User profile store (`src/user_profile.py`, `src/handlers.py`)

Python dicts are association lists with insertion-order semantics:
updating an existing key keeps its position, a new key is appended. -/

def dget {κ β : Type} [DecidableEq κ] : List (κ × β) → κ → Option β
  | [], _ => none
  | p :: rest, k => if p.1 = k then some p.2 else dget rest k

def dset {κ β : Type} [DecidableEq κ] : List (κ × β) → κ → β → List (κ × β)
  | [], k, v => [(k, v)]
  | p :: rest, k, v => if p.1 = k then (k, v) :: rest else p :: dset rest k v

/-- Python `d.update(kw)`: set each key of `kw` in order. -/
def dictUpdate {κ β : Type} [DecidableEq κ] (d kw : List (κ × β)) : List (κ × β) :=
  kw.foldl (fun acc p => dset acc p.1 p.2) d

lemma dget_dset_self {κ β : Type} [DecidableEq κ] (d : List (κ × β)) (k : κ) (v : β) :
    dget (dset d k v) k = some v := by
  induction d with
  | nil => simp [dset, dget]
  | cons p rest ih =>
    by_cases h : p.1 = k
    · simp [dset, dget, h]
    · simp [dset, dget, h, ih]

lemma dget_dset_ne {κ β : Type} [DecidableEq κ] (d : List (κ × β)) (k k' : κ) (v : β)
    (h : k' ≠ k) : dget (dset d k v) k' = dget d k' := by
  have hne : ¬ k = k' := fun hh => h hh.symm
  induction d with
  | nil =>
    simp only [dset, dget]
    rw [if_neg hne]
  | cons p rest ih =>
    by_cases hp : p.1 = k
    · subst hp
      simp only [dset, if_pos rfl, dget]
      rw [if_neg hne, if_neg hne]
    · simp only [dset, if_neg hp, dget]
      by_cases hp' : p.1 = k'
      · simp [hp']
      · simp [hp', ih]

lemma dget_dictUpdate_notin {κ β : Type} [DecidableEq κ] (d kw : List (κ × β)) (k : κ)
    (h : k ∉ kw.map Prod.fst) : dget (dictUpdate d kw) k = dget d k := by
  induction kw generalizing d with
  | nil => rfl
  | cons p rest ih =>
    simp only [List.map_cons, List.mem_cons] at h
    push_neg at h
    simp only [dictUpdate, List.foldl_cons]
    rw [show (List.foldl (fun acc p => dset acc p.1 p.2) (dset d p.1 p.2) rest)
          = dictUpdate (dset d p.1 p.2) rest from rfl]
    rw [ih (dset d p.1 p.2) h.2]
    exact dget_dset_ne d p.1 k p.2 h.1

lemma dget_dictUpdate_in {κ β : Type} [DecidableEq κ] (d kw : List (κ × β)) (k : κ)
    (hnd : (kw.map Prod.fst).Nodup) (h : k ∈ kw.map Prod.fst) :
    dget (dictUpdate d kw) k = dget kw k := by
  induction kw generalizing d with
  | nil => simp at h
  | cons p rest ih =>
    simp only [List.map_cons, List.nodup_cons] at hnd
    simp only [dictUpdate, List.foldl_cons]
    rw [show (List.foldl (fun acc p => dset acc p.1 p.2) (dset d p.1 p.2) rest)
          = dictUpdate (dset d p.1 p.2) rest from rfl]
    by_cases hk : k = p.1
    · subst hk
      rw [dget_dictUpdate_notin (dset d p.1 p.2) rest p.1 hnd.1]
      rw [dget_dset_self]
      simp [dget]
    · simp only [List.map_cons, List.mem_cons] at h
      rcases h with h | h
      · exact absurd h hk
      · rw [ih (dset d p.1 p.2) hnd.2 h]
        rw [show dget (p :: rest) k = if p.1 = k then some p.2 else dget rest k from rfl]
        rw [if_neg (fun hh => hk hh.symm)]

/-- Profile values; `none` models Python `None` (e.g.
`state_province=None` written by the settings flow). -/
abbrev PVal := Option String

/-- The profile dict of one user. -/
abbrev Profile := List (String × PVal)

/-- The in-memory `user_profiles` mapping. -/
abbrev Profiles := List (Nat × Profile)

/-- `src/user_profile.py` `update_user_profile` (lines 46-53): create the
dict of the user when absent, then `dict.update(kwargs)`. (The
`save_user_profiles` disk write is persistence I/O, outside this model.) -/
def update_user_profile (user_id : Nat) (profiles : Profiles) (kwargs : Profile) :
    Profiles :=
  let profiles1 :=
    if (dget profiles user_id).isSome then profiles else dset profiles user_id []
  dset profiles1 user_id (dictUpdate ((dget profiles1 user_id).getD []) kwargs)

/-- `src/user_profile.py` `is_onboarding_complete` (lines 55-59):
`"language" in profile and "region" in profile` on
`profiles.get(user_id, \x7b\x7d)`. -/
def is_onboarding_complete (user_id : Nat) (profiles : Profiles) : Bool :=
  let profile := (dget profiles user_id).getD []
  (dget profile "language").isSome && (dget profile "region").isSome

/-- The profile writes performed by the onboarding handlers of
`src/handlers.py`: `start` (line 88, `name=...`),
`onboard_ask_language_callback` (lines 96-97, `language=...`),
`onboard_ask_country_callback` (line 101, `country=...`),
`onboard_ask_state_province` (line 103, `state_province=...`). -/
inductive OnboardingUpdate where
  | start_name (name : String)
  | set_language (lang : String)
  | set_country (country : String)
  | set_state_province (sp : String)
deriving DecidableEq

def applyOnboarding (u : OnboardingUpdate) (user_id : Nat) (profiles : Profiles) :
    Profiles :=
  match u with
  | OnboardingUpdate.start_name n =>
      update_user_profile user_id profiles [("name", some n)]
  | OnboardingUpdate.set_language l =>
      update_user_profile user_id profiles [("language", some l)]
  | OnboardingUpdate.set_country c =>
      update_user_profile user_id profiles [("country", some c)]
  | OnboardingUpdate.set_state_province s =>
      update_user_profile user_id profiles [("state_province", some s)]

/-- Any sequence of onboarding writes, each targeting some user. -/
def applyAll (steps : List (Nat × OnboardingUpdate)) (ps : Profiles) : Profiles :=
  steps.foldl (fun acc s => applyOnboarding s.2 s.1 acc) ps

/-! ## Supporting lemmas about the gateway pipeline -/

def ContentPart.isImage : ContentPart → Bool
  | ContentPart.image_url _ => true
  | _ => false

/-- Whether a wire content carries an image part. -/
def FContent.hasImage : FContent → Bool
  | FContent.parts l => l.any ContentPart.isImage
  | _ => false

lemma formatMessage_role_ne (D : ArgsDict → String) (m : Message) :
    ((formatMessage D m).role != "") = true := by
  cases m with
  | human c => rfl
  | system c => rfl
  | tool c a b => rfl
  | ai c tcs =>
    unfold formatMessage
    by_cases h : tcs.isEmpty <;> simp [h]

lemma formatMessage_hasImage (D : ArgsDict → String) (m : Message) :
    (formatMessage D m).content.hasImage = false := by
  cases m with
  | human c => rfl
  | system c => rfl
  | tool c a b => rfl
  | ai c tcs =>
    unfold formatMessage
    by_cases h : tcs.isEmpty
    · simp [h, FContent.hasImage]
    · rcases c with _ | s <;> simp [h, FContent.hasImage]

lemma attachTo_role (b64 : String) (fm : FormattedMessage) :
    (attachTo b64 fm).role = fm.role := rfl

lemma attachImage_roles (D : ArgsDict → String) (msgs : List Message)
    (idx : Option Nat) (img : Option String) :
    ∀ fm ∈ attachImage (formatMessages D msgs) idx img, (fm.role != "") = true := by
  intro fm hfm
  rcases img with _ | b64
  · simp only [attachImage] at hfm
    rw [formatMessages_eq_map] at hfm
    rcases List.mem_map.mp hfm with ⟨m, _, rfl⟩
    exact formatMessage_role_ne D m
  · rcases idx with _ | i
    · simp only [attachImage] at hfm
      rcases List.mem_append.mp hfm with hfm | hfm
      · rw [formatMessages_eq_map] at hfm
        rcases List.mem_map.mp hfm with ⟨m, _, rfl⟩
        exact formatMessage_role_ne D m
      · simp at hfm
        subst hfm
        rfl
    · simp only [attachImage] at hfm
      rcases mem_modifyIdx _ _ _ _ hfm with hfm | ⟨b, hb, rfl⟩
      · rw [formatMessages_eq_map] at hfm
        rcases List.mem_map.mp hfm with ⟨m, _, rfl⟩
        exact formatMessage_role_ne D m
      · rw [show (attachTo b64 b).role = b.role from rfl]
        rw [formatMessages_eq_map] at hb
        rcases List.mem_map.mp hb with ⟨m, _, rfl⟩
        exact formatMessage_role_ne D m

lemma formattedForLLM_filter (D : ArgsDict → String) (msgs : List Message)
    (img : Option String) :
    (formattedForLLM D msgs img).filter (fun m => m.role != "")
      = formattedForLLM D msgs img :=
  List.filter_eq_self.mpr
    (attachImage_roles D msgs (lastHumanIndex msgs) (presentImage img))

lemma isEmpty_false_of_ne_nil {α : Type} (l : List α) (h : l ≠ []) :
    l.isEmpty = false := by
  cases l with
  | nil => exact absurd rfl h
  | cons a t => rfl

lemma formattedForLLM_ne_nil (D : ArgsDict → String) (msgs : List Message)
    (img : Option String) (h : msgs ≠ [] ∨ (presentImage img).isSome) :
    formattedForLLM D msgs img ≠ [] := by
  unfold formattedForLLM
  rcases hp : presentImage img with _ | b64
  · rcases h with h | h
    · simp only [attachImage]
      rw [formatMessages_eq_map]
      simpa using h
    · rw [hp] at h
      simp at h
  · rcases hLH : lastHumanIndex msgs with _ | i
    · simp [attachImage]
    · simp only [attachImage]
      have hj : i < msgs.length :=
        lastHumanSpec_lt_length msgs i (by rw [← lastHumanIndex_eq_spec]; exact hLH)
      intro hnil
      have : (modifyIdx (formatMessages D msgs) i (attachTo b64)).length = 0 := by
        rw [hnil]; rfl
      rw [length_modifyIdx, formatMessages_eq_map, List.length_map] at this
      omega

/-- The backend model chosen for a turn. -/
def modelFor (img : Option String) : String :=
  if (presentImage img).isSome then VISION_MODEL_NAME else TEXT_TOOL_MODEL_NAME

/-- The payload `call_llm` sends when the wire list is non-empty. -/
def payloadFor (D : ArgsDict → String) (msgs : List Message) (img : Option String) :
    ApiCallParams :=
  buildPayload (modelFor img)
    (if (presentImage img).isSome then none else some available_tools_definitions)
    (if (presentImage img).isSome then none else some "auto")
    (formattedForLLM D msgs img)

lemma call_llm_run (P : String → Option ArgsDict) (D : ArgsDict → String)
    (msgs : List Message) (img : Option String) (outcome : BackendOutcome)
    (h : msgs ≠ [] ∨ (presentImage img).isSome) :
    call_llm P D msgs img outcome
      = { payload := some (payloadFor D msgs img),
          message :=
            match outcome with
            | BackendOutcome.success c raw =>
                Message.ai (some (c.getD "")) (parseRawToolCalls P raw)
            | BackendOutcome.badRequest detail =>
                Message.ai
                  (some ("Sorry, there was an error communicating with the AI model ("
                    ++ modelFor img ++ "). Details: " ++ detail
                    ++ ". Please try again or rephrase.")) []
            | BackendOutcome.otherError en =>
                Message.ai
                  (some ("Sorry, an unexpected error occurred while processing your request with model "
                    ++ modelFor img ++ " (" ++ en ++ ").")) [] } := by
  have hfe : (formattedForLLM D msgs img).isEmpty = false :=
    isEmpty_false_of_ne_nil _ (formattedForLLM_ne_nil D msgs img h)
  unfold call_llm
  simp only [formattedForLLM_filter, hfe, Bool.false_eq_true, if_false]
  cases outcome <;> rfl

/-- Routing after appending an assistant message: the router fires iff
some tool call has a truthy id. -/
lemma should_continue_concat_ai (msgs : List Message) (c : Option String)
    (tcs : List ToolCall) :
    should_continue (msgs ++ [Message.ai c tcs])
      = if tcs.any (fun tc => truthyStr tc.id) then "execute_tools" else "__end__" := by
  unfold should_continue
  rw [List.getLast?_concat]
  by_cases he : tcs.isEmpty
  · have : tcs = [] := List.isEmpty_iff.mp he
    subst this
    simp
  · simp [he]

/-! ## Claim theorems -/

/-- Claim C1: for every agent state with a non-empty message list, the
router returns `"execute_tools"` iff the just-appended (last) message is
an assistant message carrying at least one tool-invocation request with a
non-empty id, and returns `"__end__"` (terminal) otherwise — also when
requests exist but every id is empty or absent. -/
theorem C1_router_rule (msgs : List Message) (h : msgs ≠ []) :
    (should_continue msgs = "execute_tools"
        ↔ hasValidToolRequest (msgs.getLast h) = true) ∧
    (should_continue msgs = "__end__"
        ↔ hasValidToolRequest (msgs.getLast h) = false) := by
  have hlast : msgs.getLast? = some (msgs.getLast h) := List.getLast?_eq_getLast msgs h
  unfold should_continue
  rw [hlast]
  cases hm : msgs.getLast h with
  | system c => simp [hasValidToolRequest]
  | human c => simp [hasValidToolRequest]
  | tool c a b => simp [hasValidToolRequest]
  | ai c tcs =>
    by_cases he : tcs.isEmpty
    · have : tcs = [] := List.isEmpty_iff.mp he
      subst this
      simp [hasValidToolRequest]
    · by_cases ha : tcs.any (fun tc => truthyStr tc.id) <;>
        simp [he, ha, hasValidToolRequest]

def msgsC1 : List Message :=
  [Message.ai (some "") [⟨some "a1", some "get_current_weather", [("location", "Jakarta")]⟩]]

/-- Witness for C1 at a concrete state whose last assistant message
requests one tool with id `"a1"`. -/
theorem C1_router_rule_witness :
    msgsC1 ≠ [] ∧
    ((should_continue msgsC1 = "execute_tools"
        ↔ hasValidToolRequest (msgsC1.getLast (by decide)) = true) ∧
     (should_continue msgsC1 = "__end__"
        ↔ hasValidToolRequest (msgsC1.getLast (by decide)) = false)) :=
  ⟨by decide, C1_router_rule msgsC1 (by decide)⟩

/-- The invocation-request list of an assistant message. -/
def toolCallsOf : Message → List ToolCall
  | Message.ai _ tcs => tcs
  | _ => []

def c2msg : Message :=
  Message.ai (some "")
    [⟨some "a1", some "get_current_weather", [("location", "Jakarta")]⟩,
     ⟨none, some "web_search", []⟩]

/-- Claim C2 counterexample: an assistant message with two invocation
requests, the second lacking an id, produces one tool result (≥ 1), so
the result count differs from the request count — `execute_tools` skips
the id-less request instead of emitting a correlated result. -/
theorem C2_counterexample :
    1 ≤ (execute_tools semStub [c2msg]).length ∧
    (execute_tools semStub [c2msg]).length ≠ (toolCallsOf c2msg).length := by
  decide

/-- Claim C2 (amended): the tool-result messages are in one-to-one,
order-preserving correspondence with the subsequence of the assistant
invocation requests of the assistant message having a non-empty name and
a non-empty id; the i-th result carries the `tool_call_id` and `name` of
the i-th such request. Requests with a missing or empty name or id are skipped and
produce no result. -/
theorem C2_correlation_amended (sem : ToolSem) (hist : List Message)
    (c : Option String) (tcs : List ToolCall) :
    execute_tools sem (hist ++ [Message.ai c tcs])
        = (tcs.filter validTC).map (toolMsgOf sem) ∧
    (execute_tools sem (hist ++ [Message.ai c tcs])).length
        = (tcs.filter validTC).length ∧
    ∀ i, (execute_tools sem (hist ++ [Message.ai c tcs])).get? i
        = ((tcs.filter validTC).get? i).map
            (fun tc => Message.tool (runRequest sem tc) (tc.id.getD "") (tc.name.getD "")) := by
  refine ⟨executeTools_concat_eq sem hist c tcs, ?_, ?_⟩
  · rw [executeTools_concat_eq]
    simp
  · intro i
    rw [executeTools_concat_eq]
    simp only [List.get?_eq_getElem?, List.getElem?_map]
    rfl

/-- Claim C3: with an image present the payload goes to the vision model
and carries no `tools` / `tool_choice`; without an image (and a non-empty
history) it goes to the text/tool model with the full tool-definition
list and `tool_choice = "auto"`. -/
theorem C3_backend_selection (P : String → Option ArgsDict) (D : ArgsDict → String)
    (msgs : List Message) (img : Option String) (outcome : BackendOutcome) :
    (∀ b64, presentImage img = some b64 →
       ∃ p, (call_llm P D msgs img outcome).payload = some p ∧
         p.model = VISION_MODEL_NAME ∧ p.tools = none ∧ p.tool_choice = none) ∧
    (presentImage img = none → msgs ≠ [] →
       ∃ p, (call_llm P D msgs img outcome).payload = some p ∧
         p.model = TEXT_TOOL_MODEL_NAME ∧
         p.tools = some available_tools_definitions ∧
         p.tool_choice = some "auto") := by
  constructor
  · intro b64 hb
    rw [call_llm_run P D msgs img outcome (Or.inr (by simp [hb]))]
    refine ⟨payloadFor D msgs img, rfl, ?_, ?_, ?_⟩ <;>
      simp [payloadFor, buildPayload, modelFor, hb, toolsTruthy]
  · intro hb hmsgs
    rw [call_llm_run P D msgs img outcome (Or.inl hmsgs)]
    refine ⟨payloadFor D msgs img, rfl, ?_, ?_, ?_⟩ <;>
      simp [payloadFor, buildPayload, modelFor, hb, toolsTruthy,
            available_tools_definitions]

def dStub : ArgsDict → String := fun _ => "\x7b\x7d"

def pStub : String → Option ArgsDict := fun _ => some []

/-- Witness for C3: one turn with an image, one without. -/
theorem C3_backend_selection_witness :
    (presentImage (some "IMG") = some "IMG" ∧
     ∃ p, (call_llm pStub dStub [Message.human "Hi"] (some "IMG")
             (BackendOutcome.success (some "ok") [])).payload = some p ∧
       p.model = VISION_MODEL_NAME ∧ p.tools = none ∧ p.tool_choice = none) ∧
    (presentImage none = none ∧ ([Message.human "Hi"] : List Message) ≠ [] ∧
     ∃ p, (call_llm pStub dStub [Message.human "Hi"] none
             (BackendOutcome.success (some "ok") [])).payload = some p ∧
       p.model = TEXT_TOOL_MODEL_NAME ∧
       p.tools = some available_tools_definitions ∧
       p.tool_choice = some "auto") :=
  ⟨⟨rfl, (C3_backend_selection pStub dStub [Message.human "Hi"] (some "IMG")
            (BackendOutcome.success (some "ok") [])).1 "IMG" rfl⟩,
   ⟨rfl, by decide,
    (C3_backend_selection pStub dStub [Message.human "Hi"] none
       (BackendOutcome.success (some "ok") [])).2 rfl (by decide)⟩⟩

/-- Claim C5: when the backend call fails — request rejection
(`BadRequestError`) or any other exception — `call_llm` returns an
assistant message whose text explains the failure and which carries no
tool-invocation requests, so the router ends the turn; the exception is
consumed, not re-raised, and no retry happens (structurally: `call_llm`
consumes exactly one backend outcome and always returns a message). -/
theorem C5_gateway_failure (P : String → Option ArgsDict) (D : ArgsDict → String)
    (msgs : List Message) (img : Option String) (detail exn : String)
    (h : msgs ≠ []) :
    ((call_llm P D msgs img (BackendOutcome.badRequest detail)).message
        = Message.ai
            (some ("Sorry, there was an error communicating with the AI model ("
              ++ modelFor img ++ "). Details: " ++ detail
              ++ ". Please try again or rephrase.")) []) ∧
    ((call_llm P D msgs img (BackendOutcome.otherError exn)).message
        = Message.ai
            (some ("Sorry, an unexpected error occurred while processing your request with model "
              ++ modelFor img ++ " (" ++ exn ++ ").")) []) ∧
    should_continue
        (msgs ++ [(call_llm P D msgs img (BackendOutcome.badRequest detail)).message])
      = "__end__" ∧
    should_continue
        (msgs ++ [(call_llm P D msgs img (BackendOutcome.otherError exn)).message])
      = "__end__" := by
  rw [call_llm_run P D msgs img (BackendOutcome.badRequest detail) (Or.inl h),
      call_llm_run P D msgs img (BackendOutcome.otherError exn) (Or.inl h)]
  refine ⟨rfl, rfl, ?_, ?_⟩ <;>
    simp [should_continue_concat_ai]

/-- Witness for C5 at a concrete failed turn. -/
theorem C5_gateway_failure_witness :
    ([Message.human "Hi"] : List Message) ≠ [] ∧
    should_continue
        ([Message.human "Hi"]
          ++ [(call_llm pStub dStub [Message.human "Hi"] none
                 (BackendOutcome.badRequest "bad payload")).message])
      = "__end__" :=
  ⟨by decide,
   (C5_gateway_failure pStub dStub [Message.human "Hi"] none "bad payload" "TimeoutError"
      (by decide)).2.2.1⟩

/-- Claim C6: for every invocation request with non-empty name and id,
`execute_tools` emits a tool-result message even on failure: an unknown
tool name yields an error body naming the missing tool; a tool body that
raises yields an error body naming the tool and the exception class. The
stage is a total function, so no exception propagates. -/
theorem C6_tool_failure_containment (sem : ToolSem) (hist : List Message)
    (c : Option String) (tcs : List ToolCall) (tc : ToolCall)
    (hmem : tc ∈ tcs) (hv : validTC tc = true) :
    toolMsgOf sem tc ∈ execute_tools sem (hist ++ [Message.ai c tcs]) ∧
    toolMsgOf sem tc
      = Message.tool (runRequest sem tc) (tc.id.getD "") (tc.name.getD "") ∧
    (sem.lookup (tc.name.getD "") = false →
       runRequest sem tc
         = "Error: Tool \x27" ++ tc.name.getD "" ++ "\x27 not found.") ∧
    (∀ en em, sem.lookup (tc.name.getD "") = true →
       sem.run (tc.name.getD "") tc.args = ToolOutcome.raised en em →
       runRequest sem tc
         = "Error executing tool " ++ tc.name.getD "" ++ ": " ++ en ++ " - " ++ em) := by
  refine ⟨?_, rfl, ?_, ?_⟩
  · rw [executeTools_concat_eq]
    exact List.mem_map_of_mem _ (List.mem_filter.mpr ⟨hmem, hv⟩)
  · intro hl
    unfold runRequest
    simp [hl]
  · intro en em hl hr
    unfold runRequest
    simp [hl, hr]

def tcNonexistent : ToolCall := ⟨some "b1", some "nonexistent_tool", []⟩

/-- Witness for C6: the `"nonexistent_tool"` scenario — the result body
is the not-found marker naming that tool. -/
theorem C6_tool_failure_containment_witness :
    tcNonexistent ∈ [tcNonexistent] ∧ validTC tcNonexistent = true ∧
    toolMsgOf semStub tcNonexistent
      ∈ execute_tools semStub ([Message.human "Hi"] ++ [Message.ai (some "") [tcNonexistent]]) ∧
    runRequest semStub tcNonexistent
      = "Error: Tool \x27nonexistent_tool\x27 not found." :=
  ⟨by decide, by decide,
   (C6_tool_failure_containment semStub [Message.human "Hi"] (some "")
      [tcNonexistent] tcNonexistent (by decide) (by decide)).1,
   (C6_tool_failure_containment semStub [Message.human "Hi"] (some "")
      [tcNonexistent] tcNonexistent (by decide) (by decide)).2.2.1 rfl⟩

/-- Claim C7: each raw tool-call entry whose argument string fails to
decode is dropped individually; the remaining entries are parsed in
order. If every entry is dropped, the assistant message has an empty
request list and the router proceeds to `__end__`, with the reply text
kept (defaulting to `""` when the backend returned none). -/
theorem C7_malformed_args (P : String → Option ArgsDict) (D : ArgsDict → String)
    (msgs : List Message) (img : Option String) (c : Option String)
    (raw : List RawToolCall) (h : msgs ≠ []) :
    ((call_llm P D msgs img (BackendOutcome.success c raw)).message
        = Message.ai (some (c.getD ""))
            (raw.filterMap
              (fun tc => (P tc.arguments).map (fun a => ToolCall.mk tc.id tc.name a)))) ∧
    ((∀ tc ∈ raw, P tc.arguments = none) →
       (call_llm P D msgs img (BackendOutcome.success c raw)).message
           = Message.ai (some (c.getD "")) [] ∧
       should_continue
           (msgs ++ [(call_llm P D msgs img (BackendOutcome.success c raw)).message])
         = "__end__") := by
  rw [call_llm_run P D msgs img (BackendOutcome.success c raw) (Or.inl h)]
  refine ⟨?_, ?_⟩
  · show Message.ai (some (c.getD "")) (parseRawToolCalls P raw) = _
    rw [parseRawToolCalls_eq]
  · intro hall
    have hnil : parseRawToolCalls P raw = [] := by
      rw [parseRawToolCalls_eq]
      rw [List.filterMap_eq_nil_iff]
      intro tc htc
      rw [hall tc htc]
      rfl
    constructor
    · show Message.ai (some (c.getD "")) (parseRawToolCalls P raw) = _
      rw [hnil]
    · show should_continue
          (msgs ++ [Message.ai (some (c.getD "")) (parseRawToolCalls P raw)]) = "__end__"
      rw [hnil]
      simp [should_continue_concat_ai]

def rawBadArgs : List RawToolCall :=
  [⟨some "a1", some "get_current_weather", "not json"⟩,
   ⟨some "a2", some "web_search", "also not json"⟩]

def pNone : String → Option ArgsDict := fun _ => none

/-- Witness for C7: a reply whose every tool-call entry fails argument
decoding yields a terminal assistant message with the reply text. -/
theorem C7_malformed_args_witness :
    ([Message.human "Hi"] : List Message) ≠ [] ∧
    (∀ tc ∈ rawBadArgs, pNone tc.arguments = none) ∧
    (call_llm pNone dStub [Message.human "Hi"] none
         (BackendOutcome.success (some "text kept") rawBadArgs)).message
       = Message.ai (some "text kept") [] ∧
    should_continue
        ([Message.human "Hi"]
          ++ [(call_llm pNone dStub [Message.human "Hi"] none
                 (BackendOutcome.success (some "text kept") rawBadArgs)).message])
      = "__end__" :=
  ⟨by decide, by intro tc _; rfl,
   ((C7_malformed_args pNone dStub [Message.human "Hi"] none (some "text kept")
       rawBadArgs (by decide)).2 (by intro tc _; rfl)).1,
   ((C7_malformed_args pNone dStub [Message.human "Hi"] none (some "text kept")
       rawBadArgs (by decide)).2 (by intro tc _; rfl)).2⟩

/-- Claim C8: with an image present, if the history has a user message,
the image part is appended to exactly the wire message of the most recent
user message (every other wire message is untouched, and no base wire
message carries an image); if the history has no user message, a new user
message with the generic analysis request plus the image is appended. -/
theorem C8_image_attachment (D : ArgsDict → String) (msgs : List Message)
    (img : Option String) (b64 : String) (h : presentImage img = some b64) :
    (∀ j, lastHumanIndex msgs = some j →
       ∃ s, msgs.get? j = some (Message.human s) ∧
         (∀ i, j < i → ∀ t, msgs.get? i ≠ some (Message.human t)) ∧
         (formattedForLLM D msgs img).get? j
           = some { role := "user",
                    content := FContent.parts
                      [ContentPart.text s, ContentPart.image_url (imageUrl b64)] } ∧
         (∀ i, i ≠ j →
            (formattedForLLM D msgs img).get? i = (formatMessages D msgs).get? i)) ∧
    (lastHumanIndex msgs = none →
       (∀ m ∈ msgs, ∀ s, m ≠ Message.human s) ∧
       formattedForLLM D msgs img
         = formatMessages D msgs ++ [syntheticImageMessage b64]) ∧
    (∀ fm ∈ formatMessages D msgs, fm.content.hasImage = false) := by
  refine ⟨?_, ?_, ?_⟩
  · intro j hj
    have hspec : lastHumanSpec msgs = some j := by
      rw [← lastHumanIndex_eq_spec]
      exact hj
    rcases lastHumanSpec_get msgs j hspec with ⟨s, hs⟩
    refine ⟨s, hs, lastHumanSpec_latest msgs j hspec, ?_, ?_⟩
    · unfold formattedForLLM
      rw [h, hj]
      simp only [attachImage]
      rw [get?_modifyIdx_self]
      rw [formatMessages_eq_map]
      simp only [List.get?_eq_getElem?, List.getElem?_map]
      rw [← List.get?_eq_getElem?, hs]
      rfl
    · intro i hi
      unfold formattedForLLM
      rw [h, hj]
      simp only [attachImage]
      exact get?_modifyIdx_ne _ j i _ hi
  · intro hj
    have hspec : lastHumanSpec msgs = none := by
      rw [← lastHumanIndex_eq_spec]
      exact hj
    refine ⟨lastHumanSpec_none_forall msgs hspec, ?_⟩
    unfold formattedForLLM
    rw [h, hj]
    rfl
  · intro fm hfm
    rw [formatMessages_eq_map] at hfm
    rcases List.mem_map.mp hfm with ⟨m, _, rfl⟩
    exact formatMessage_hasImage D m

def msgsC8 : List Message :=
  [Message.system "You are AgriSight Bot.",
   Message.human "What is wrong with my rice crop?",
   Message.ai (some "Let me look.") []]

/-- Witness for C8: the image lands on index 1 (the only user message)
and the other wire messages are unchanged. -/
theorem C8_image_attachment_witness :
    presentImage (some "IMG") = some "IMG" ∧
    lastHumanIndex msgsC8 = some 1 ∧
    (∃ s, msgsC8.get? 1 = some (Message.human s) ∧
       (∀ i, 1 < i → ∀ t, msgsC8.get? i ≠ some (Message.human t)) ∧
       (formattedForLLM dStub msgsC8 (some "IMG")).get? 1
         = some { role := "user",
                  content := FContent.parts
                    [ContentPart.text s, ContentPart.image_url (imageUrl "IMG")] } ∧
       (∀ i, i ≠ 1 →
          (formattedForLLM dStub msgsC8 (some "IMG")).get? i
            = (formatMessages dStub msgsC8).get? i)) :=
  ⟨rfl, by decide,
   (C8_image_attachment dStub msgsC8 (some "IMG") "IMG" rfl).1 1 (by decide)⟩

/-- Loop invariant for a backend that always requests a tool: the state
is never `done` and its message list is non-empty. -/
def LoopInv : Nat × LoopState → Prop
  | (_, LoopState.awaitModel m) => m ≠ []
  | (_, LoopState.runTools m) => m ≠ []
  | (_, LoopState.done _) => False

lemma loopInv_step (cfg : LoopConfig)
    (hB : ∀ k, ∃ c raw, cfg.backend k = BackendOutcome.success c raw ∧
            ∃ tc ∈ raw, (cfg.parseJson tc.arguments).isSome ∧ truthyStr tc.id = true)
    (s : Nat × LoopState) (hs : LoopInv s) : LoopInv (loopStep cfg s) := by
  rcases s with ⟨k, st⟩
  cases st with
  | done m => exact absurd hs (by simp [LoopInv])
  | runTools m =>
    show LoopInv (k, LoopState.awaitModel (m ++ execute_tools cfg.sem m))
    have : m ++ execute_tools cfg.sem m ≠ [] := by
      intro hc
      exact hs (List.append_eq_nil.mp hc).1
    exact this
  | awaitModel m =>
    rcases hB k with ⟨c, raw, hbk, tc, htc, hparse, hid⟩
    have hm : m ≠ [] := hs
    have hmsg : (call_llm cfg.parseJson cfg.dumpJson m cfg.image_base64 (cfg.backend k)).message
        = Message.ai (some (c.getD "")) (parseRawToolCalls cfg.parseJson raw) := by
      rw [hbk]
      rw [call_llm_run cfg.parseJson cfg.dumpJson m cfg.image_base64
            (BackendOutcome.success c raw) (Or.inl hm)]
    rcases hp : cfg.parseJson tc.arguments with _ | args
    · rw [hp] at hparse
      simp at hparse
    · have hmem : ToolCall.mk tc.id tc.name args ∈ parseRawToolCalls cfg.parseJson raw := by
        rw [parseRawToolCalls_eq]
        apply List.mem_filterMap.mpr
        exact ⟨tc, htc, by rw [hp]; rfl⟩
      have hroute : should_continue
          (m ++ [Message.ai (some (c.getD "")) (parseRawToolCalls cfg.parseJson raw)])
          = "execute_tools" := by
        rw [should_continue_concat_ai]
        have : (parseRawToolCalls cfg.parseJson raw).any (fun tc => truthyStr tc.id) = true :=
          List.any_eq_true.mpr ⟨ToolCall.mk tc.id tc.name args, hmem, hid⟩
        rw [this]
        rfl
      have hstep : loopStep cfg (k, LoopState.awaitModel m)
          = (k + 1, LoopState.runTools
              (m ++ [Message.ai (some (c.getD "")) (parseRawToolCalls cfg.parseJson raw)])) := by
        show (if should_continue
                  (m ++ [(call_llm cfg.parseJson cfg.dumpJson m cfg.image_base64
                            (cfg.backend k)).message]) = "execute_tools"
              then (k + 1, LoopState.runTools
                  (m ++ [(call_llm cfg.parseJson cfg.dumpJson m cfg.image_base64
                            (cfg.backend k)).message]))
              else (k + 1, LoopState.done
                  (m ++ [(call_llm cfg.parseJson cfg.dumpJson m cfg.image_base64
                            (cfg.backend k)).message]))) = _
        rw [hmsg, hroute]
        simp
      show LoopInv (loopStep cfg (k, LoopState.awaitModel m))
      rw [hstep]
      show m ++ [Message.ai (some (c.getD "")) (parseRawToolCalls cfg.parseJson raw)] ≠ []
      simp

lemma loopInv_iter (cfg : LoopConfig)
    (hB : ∀ k, ∃ c raw, cfg.backend k = BackendOutcome.success c raw ∧
            ∃ tc ∈ raw, (cfg.parseJson tc.arguments).isSome ∧ truthyStr tc.id = true)
    (n : Nat) (s : Nat × LoopState) (hs : LoopInv s) : LoopInv (loopIter cfg n s) := by
  induction n generalizing s with
  | zero => exact hs
  | succ n ih => exact ih (loopStep cfg s) (loopInv_step cfg hB s hs)

/-- Claim C4 counterexample: against a backend that requests a tool (with
a non-empty id and decodable arguments) on every reply, the loop has not
reached `DONE` after 24 graph transitions (12 model/tool rounds) from a
one-message history — refuting any enforced maximum round count in the
suggested 6-10 range, since `DONE` is absorbing. -/
theorem C4_counterexample :
    isDone (loopIter advCfg 24 (0, LoopState.awaitModel [Message.human "Hi"])).2 = false := by
  decide

/-- Claim C4 (amended): no maximum number of model/tool rounds is
enforced by the control loop. Against a backend whose every reply carries
a tool-invocation request with a non-empty id and decodable arguments,
the loop never reaches `DONE`, for any number of transitions; the loop
terminates only when a reply is appended without such a request. -/
theorem C4_no_round_bound (cfg : LoopConfig)
    (hB : ∀ k, ∃ c raw, cfg.backend k = BackendOutcome.success c raw ∧
            ∃ tc ∈ raw, (cfg.parseJson tc.arguments).isSome ∧ truthyStr tc.id = true)
    (msgs0 : List Message) (h0 : msgs0 ≠ []) (n : Nat) :
    isDone (loopIter cfg n (0, LoopState.awaitModel msgs0)).2 = false := by
  have h := loopInv_iter cfg hB n (0, LoopState.awaitModel msgs0) h0
  rcases hfin : loopIter cfg n (0, LoopState.awaitModel msgs0) with ⟨k, st⟩
  rw [hfin] at h
  cases st with
  | awaitModel m => rfl
  | runTools m => rfl
  | done m => exact absurd h (by simp [LoopInv])

/-- Witness for C4 (amended) at the concrete adversarial configuration. -/
theorem C4_no_round_bound_witness :
    isDone (loopIter advCfg 7 (0, LoopState.awaitModel [Message.human "Hi"])).2 = false :=
  C4_no_round_bound advCfg
    (fun k => ⟨some "", [⟨some "a1", some "get_current_weather", "\x7b\x7d"⟩], rfl,
      ⟨some "a1", some "get_current_weather", "\x7b\x7d"⟩, by decide, by decide, by decide⟩)
    [Message.human "Hi"] (by decide) 7

/-! ## Profile-store lemmas -/

lemma base_profile_eq (user_id : Nat) (profiles : Profiles) :
    ((dget (if (dget profiles user_id).isSome then profiles
            else dset profiles user_id []) user_id).getD [])
      = (dget profiles user_id).getD [] := by
  by_cases h1 : (dget profiles user_id).isSome
  · simp [h1]
  · simp only [h1, Bool.false_eq_true, if_false]
    rw [dget_dset_self]
    rcases hh : dget profiles user_id with _ | v
    · rfl
    · rw [hh] at h1
      simp at h1

lemma update_frame_other (user_id : Nat) (profiles : Profiles) (kwargs : Profile)
    (u : Nat) (hu : u ≠ user_id) :
    dget (update_user_profile user_id profiles kwargs) u = dget profiles u := by
  unfold update_user_profile
  rw [dget_dset_ne _ user_id u _ hu]
  by_cases h1 : (dget profiles user_id).isSome
  · simp [h1]
  · simp only [h1, Bool.false_eq_true, if_false]
    exact dget_dset_ne profiles user_id u [] hu

lemma update_profile_key_notin (user_id : Nat) (profiles : Profiles)
    (kwargs : Profile) (k : String) (hk : k ∉ kwargs.map Prod.fst) :
    dget ((dget (update_user_profile user_id profiles kwargs) user_id).getD []) k
      = dget ((dget profiles user_id).getD []) k := by
  unfold update_user_profile
  rw [dget_dset_self]
  simp only [Option.getD_some]
  rw [dget_dictUpdate_notin _ kwargs k hk]
  rw [base_profile_eq]

lemma update_profile_key_in (user_id : Nat) (profiles : Profiles)
    (kwargs : Profile) (k : String) (hnd : (kwargs.map Prod.fst).Nodup)
    (hk : k ∈ kwargs.map Prod.fst) :
    dget ((dget (update_user_profile user_id profiles kwargs) user_id).getD []) k
      = dget kwargs k := by
  unfold update_user_profile
  rw [dget_dset_self]
  simp only [Option.getD_some]
  exact dget_dictUpdate_in _ kwargs k hnd hk

lemma update_region_invariant (uid u : Nat) (ps : Profiles) (kwargs : Profile)
    (hk : "region" ∉ kwargs.map Prod.fst)
    (h : dget ((dget ps u).getD []) "region" = none) :
    dget ((dget (update_user_profile uid ps kwargs) u).getD []) "region" = none := by
  by_cases hu : u = uid
  · subst hu
    rw [update_profile_key_notin u ps kwargs "region" hk]
    exact h
  · rw [update_frame_other uid ps kwargs u hu]
    exact h

lemma onboarding_region_invariant (st : OnboardingUpdate) (uid u : Nat)
    (ps : Profiles) (h : dget ((dget ps u).getD []) "region" = none) :
    dget ((dget (applyOnboarding st uid ps) u).getD []) "region" = none := by
  cases st with
  | start_name n => exact update_region_invariant uid u ps _ (by simp) h
  | set_language l => exact update_region_invariant uid u ps _ (by simp) h
  | set_country c => exact update_region_invariant uid u ps _ (by simp) h
  | set_state_province s => exact update_region_invariant uid u ps _ (by simp) h

lemma applyAll_region_invariant (steps : List (Nat × OnboardingUpdate)) (u : Nat)
    (ps : Profiles) (h : dget ((dget ps u).getD []) "region" = none) :
    dget ((dget (applyAll steps ps) u).getD []) "region" = none := by
  induction steps generalizing ps with
  | nil => exact h
  | cons s rest ih =>
    exact ih (applyOnboarding s.2 s.1 ps)
      (onboarding_region_invariant s.2 s.1 u ps h)

/-- Claim C9: `is_onboarding_complete` holds iff the stored profile has
both the keys `"language"` and `"region"`; and since the onboarding
handlers only ever write `name`, `language`, `country`, and
`state_province`, any sequence of onboarding writes starting from a
profile without `"region"` leaves `is_onboarding_complete` false. -/
theorem C9_onboarding_never_complete (u : Nat) (ps : Profiles)
    (steps : List (Nat × OnboardingUpdate))
    (h : dget ((dget ps u).getD []) "region" = none) :
    (∀ v : Nat, ∀ qs : Profiles,
       is_onboarding_complete v qs = true
         ↔ (dget ((dget qs v).getD []) "language").isSome = true
            ∧ (dget ((dget qs v).getD []) "region").isSome = true) ∧
    is_onboarding_complete u (applyAll steps ps) = false := by
  constructor
  · intro v qs
    show ((dget ((dget qs v).getD []) "language").isSome
        && (dget ((dget qs v).getD []) "region").isSome) = true ↔ _
    rw [Bool.and_eq_true]
  · have hr := applyAll_region_invariant steps u ps h
    show ((dget ((dget (applyAll steps ps) u).getD []) "language").isSome
        && (dget ((dget (applyAll steps ps) u).getD []) "region").isSome) = false
    rw [hr]
    simp

def onboardSteps : List (Nat × OnboardingUpdate) :=
  [(7, OnboardingUpdate.start_name "Ana"),
   (7, OnboardingUpdate.set_language "en"),
   (7, OnboardingUpdate.set_country "Indonesia"),
   (7, OnboardingUpdate.set_state_province "Bali")]

/-- Witness for C9: a fresh user completing the entire onboarding flow is
still reported as not onboarded. -/
theorem C9_onboarding_never_complete_witness :
    dget ((dget ([] : Profiles) 7).getD []) "region" = none ∧
    is_onboarding_complete 7 (applyAll onboardSteps []) = false :=
  ⟨rfl, (C9_onboarding_never_complete 7 [] onboardSteps rfl).2⟩

/-- Claim C10: `update_user_profile` leaves the entry of every other user
unchanged, keeps every key of the profile of this user not named in `kwargs`
at its prior value (the profile being created empty first when absent),
and sets exactly the keys of `kwargs` to the given values. -/
theorem C10_update_frame (user_id : Nat) (profiles : Profiles) (kwargs : Profile)
    (hnd : (kwargs.map Prod.fst).Nodup) :
    (∀ u, u ≠ user_id →
       dget (update_user_profile user_id profiles kwargs) u = dget profiles u) ∧
    (∀ k, k ∉ kwargs.map Prod.fst →
       dget ((dget (update_user_profile user_id profiles kwargs) user_id).getD []) k
         = dget ((dget profiles user_id).getD []) k) ∧
    (∀ k, k ∈ kwargs.map Prod.fst →
       dget ((dget (update_user_profile user_id profiles kwargs) user_id).getD []) k
         = dget kwargs k) :=
  ⟨fun u hu => update_frame_other user_id profiles kwargs u hu,
   fun k hk => update_profile_key_notin user_id profiles kwargs k hk,
   fun k hk => update_profile_key_in user_id profiles kwargs k hnd hk⟩

def profilesW : Profiles :=
  [(1, [("language", some "en"), ("name", some "Bo")]),
   (2, [("name", some "Cy")])]

def kwargsW : Profile :=
  [("country", some "Indonesia"), ("language", some "id")]

/-- Witness for C10 at a concrete store: user 2 untouched, the
`name` of user 1 kept, `country` set. -/
theorem C10_update_frame_witness :
    (kwargsW.map Prod.fst).Nodup ∧
    dget (update_user_profile 1 profilesW kwargsW) 2 = dget profilesW 2 ∧
    dget ((dget (update_user_profile 1 profilesW kwargsW) 1).getD []) "name"
      = dget ((dget profilesW 1).getD []) "name" ∧
    dget ((dget (update_user_profile 1 profilesW kwargsW) 1).getD []) "country"
      = dget kwargsW "country" :=
  ⟨by decide,
   (C10_update_frame 1 profilesW kwargsW (by decide)).1 2 (by decide),
   (C10_update_frame 1 profilesW kwargsW (by decide)).2.1 "name" (by decide),
   (C10_update_frame 1 profilesW kwargsW (by decide)).2.2 "country" (by decide)⟩

end PadiChat
